import Mathlib

/-!
Shallow embedding of the YugaByte Jepsen orchestrator
(`src/yugabyte/run-jepsen.py`) and proofs about the claims of its
specification.  Pure functions of the script are translated to Lean
functions; the process-supervision loop is modelled in discrete time
(one poll per second, as the script sleeps one second per iteration);
the mutable `test_cases` dict and `not_good_tests` list of `main` are
threaded explicitly through a fold over the sequence of runs.
-/

namespace RunJepsen

/-! ## Version comparison (`is_version_at_least`, lines 142-147)

`re.split('\.|-b', v)` splits a version string on a dot or on the
literal two-character separator `-b`, scanning left to right. -/

/-- Left-to-right splitter for `re.split` with pattern dot-or-minus-b:
the accumulator holds the current component reversed. -/
def splitVersionAux : List Char → List Char → List String
  | [], acc => [String.mk acc.reverse]
  | '.' :: rest, acc => String.mk acc.reverse :: splitVersionAux rest []
  | '-' :: 'b' :: rest, acc => String.mk acc.reverse :: splitVersionAux rest []
  | c :: rest, acc => splitVersionAux rest (c :: acc)

/-- `re.split('\.|-b', s)` from the script. -/
def splitVersion (s : String) : List String :=
  splitVersionAux s.data []

/-- Value of one decimal digit character. -/
def digitVal (c : Char) : Nat :=
  c.toNat - '0'.toNat

/-- Decimal numeral evaluation, most significant digit first. -/
def parseNatAux : List Char → Nat → Nat
  | [], acc => acc
  | c :: rest, acc => parseNatAux rest (acc * 10 + digitVal c)

/-- Python's `int` applied to a version component.  The script only ever
feeds decimal numerals to `int` (any other component would raise
`ValueError`); on such numerals this agrees with `int`. -/
def pyInt (s : String) : Int :=
  Int.ofNat (parseNatAux s.data 0)

/-- `itertools.zip_longest(xs, ys, fillvalue=0)`: pair positionally,
padding the shorter sequence with zeros. -/
def zipLongest0 : List Int → List Int → List (Int × Int)
  | [], ys => ys.map (fun j => (0, j))
  | i :: is, [] => (i, 0) :: zipLongest0 is []
  | i :: is, j :: js => (i, j) :: zipLongest0 is js

/-- `next((i < j for i, j in pairs if i != j), True)`: the comparison at
the first differing pair, defaulting to `True` when every pair is equal. -/
def firstDiffLess : List (Int × Int) → Bool
  | [] => true
  | (i, j) :: rest => if i ≠ j then decide (i < j) else firstDiffLess rest

/-- `is_version_at_least(v_least, v_actual)` from lines 142-147. -/
def is_version_at_least (v_least v_actual : String) : Bool :=
  firstDiffLess
    (zipLongest0 ((splitVersion v_least).map pyInt)
      ((splitVersion v_actual).map pyInt))

/-- The spec's characterisation of the comparison, stated on the zipped
component pairs: either no differing position exists, or the list splits
at the first differing position and there the required component is
smaller. -/
def versionSpecHolds (zs : List (Int × Int)) : Prop :=
  (∀ p ∈ zs, p.1 = p.2) ∨
    ∃ l₁ i j l₂, zs = l₁ ++ (i, j) :: l₂ ∧ (∀ p ∈ l₁, p.1 = p.2) ∧ i ≠ j ∧ i < j

/-! ## `truncate_line` (lines 162-167) -/

/-- `truncate_line(line, max_chars)` from lines 162-167.  The annotation
`"... (skipped %d chars)"` is the Python format string instantiated. -/
def truncate_line (line : String) (max_chars : Nat) : String :=
  if line.length ≤ max_chars then line
  else
    let res_candidate :=
      line.take max_chars ++ "... (skipped " ++ toString (line.length - max_chars) ++ " chars)"
    if line.length ≤ res_candidate.length then line else res_candidate

/-- `truncate_line` at its default `max_chars=500`. -/
def truncate_line_default (line : String) : String :=
  truncate_line line 500

/-! ## Outcome classification (`main`, lines 511-535)

The branch structure of the recording code, kept exactly: the
`everything_looks_good` test comes first; inside its `else`, the chain is
`if timed_out` / `elif not everything_looks_good` / `else` (exit code). -/

/-- A run's `CmdResult` (named tuple, lines 41-45).  Python's
`output=None` is `none`. -/
structure CmdResult where
  output : Option String
  returncode : Int
  timed_out : Bool
  everything_looks_good : Bool
deriving DecidableEq, Repr

/-- The four outcome labels the recording code can attach to a run. -/
inductive RunLabel
  | Pass
  | Timeout
  | ValidationFailure
  | NonZeroExit
deriving DecidableEq, Repr

/-- The label the recording code of `main` (lines 511-535) attaches to a
resolved `CmdResult`: `Pass` when `everything_looks_good`; otherwise
`Timeout` when `timed_out`, then `ValidationFailure` when
`not everything_looks_good` (the literal `elif` of line 525), and the
final `else` (exit-code failure, line 529) otherwise. -/
def classify (r : CmdResult) : RunLabel :=
  if r.everything_looks_good then RunLabel.Pass
  else if r.timed_out then RunLabel.Timeout
  else if !r.everything_looks_good then RunLabel.ValidationFailure
  else RunLabel.NonZeroExit

/-! ## Process supervision (`run_cmd`, lines 257-334)

The supervised child is modelled in discrete time: `exitsAt` is the
second at which it would exit on its own (`none` if it never exits),
`exitCode` the code of that natural exit, and `killExitCode` the code
that `p.wait()` reports after `p.kill()`.  The script polls once per
second (`time.sleep(1)`), so one poll per unit of time is faithful to
its loop; `run_cmd` is modelled for a finite `timeout`, which is how
the run loop always calls it (`TEST_AND_ANALYSIS_TIMEOUT_SEC`). -/

/-- Abstract supervised process. -/
structure ProcModel where
  exitsAt : Option Nat
  exitCode : Int
  killExitCode : Int
deriving DecidableEq, Repr

/-- `p.poll() is not None` at time `t`: the process has exited by `t`. -/
def procExited (p : ProcModel) (t : Nat) : Bool :=
  match p.exitsAt with
  | none => false
  | some e => decide (e ≤ t)

/-- The poll loop `while p.poll() is None and time.time() < deadline:
time.sleep(1)` of lines 287-288, at current time `t` with `remaining`
seconds until the deadline (`remaining = deadline - t`); returns the
time at which the loop exits.  With `remaining = 0` the condition
`time.time() < deadline` is false and the loop exits at once. -/
def waitLoopAux (p : ProcModel) : Nat → Nat → Nat
  | 0, t => t
  | remaining + 1, t => if procExited p t then t else waitLoopAux p remaining (t + 1)

/-- The poll loop of lines 287-288 started at time `0` with deadline
`deadline`: the time at which supervision stops polling. -/
def waitLoop (p : ProcModel) (deadline : Nat) : Nat :=
  waitLoopAux p deadline 0

/-- The success sentinel scanned for in the output tail (line 308). -/
def sentinel : String := "Everything looks good!"

/-- Whether the first list is a prefix of the second. -/
def prefixMatches : List Char → List Char → Bool
  | [], _ => true
  | _ :: _, [] => false
  | c :: cs, d :: ds => c = d && prefixMatches cs ds

/-- Python's `line.startswith(pre)`. -/
def pyStartswith (line pre : String) : Bool :=
  prefixMatches pre.data line.data

/-- `tail -n n file` (via `get_last_lines`, lines 170-175), on a file
modelled as its list of lines. -/
def last_lines (fileLines : List String) (n : Nat) : List String :=
  fileLines.drop (fileLines.length - n)

/-- What `run_cmd` leaves behind on return, beyond the `CmdResult`:
whether a kill signal was sent, whether the child is still alive, and
whether the capture files were kept (`keep_output_log_file`). -/
structure RunCmdOutcome where
  result : CmdResult
  killSent : Bool
  aliveAtReturn : Bool
  filesKept : Bool
deriving DecidableEq, Repr

/-- `run_cmd(cmd, timeout, ...)` of lines 257-334, for a finite
`timeout`.  `captured` is `some fileLines` when `log_name_prefix` was
given (standard output redirected to a file whose lines are
`fileLines`), `none` when output was not captured.  The supervision
follows lines 286-298, the sentinel scan and output-tail construction
lines 303-316, and the capture-file deletion the `finally` block
(lines 318-334): the files are removed exactly when
`everything_looks_good` cleared `keep_output_log_file`. -/
def runCmd (p : ProcModel) (timeout : Nat) (captured : Option (List String)) :
    RunCmdOutcome :=
  let tEnd := waitLoop p timeout
  let timed_out := !procExited p tEnd
  let returncode := if timed_out then p.killExitCode else p.exitCode
  let last_lines_of_output :=
    match captured with
    | none => []
    | some fileLines => last_lines fileLines 50
  let everything_looks_good :=
    last_lines_of_output.any (fun l => pyStartswith l sentinel)
  { result :=
      { output :=
          if everything_looks_good then none
          else some (String.intercalate "\n"
            (last_lines_of_output.map truncate_line_default)),
        returncode := returncode,
        timed_out := timed_out,
        everything_looks_good := everything_looks_good },
    killSent := timed_out,
    aliveAtReturn := !procExited p tEnd && !timed_out,
    filesKept := captured.isSome && !everything_looks_good }

/-! ## Cleanup handler (`cleanup`, lines 150-159)

Each registry entry is a child process, abstracted to whether it is
still alive.  The handler waits up to a shared five-second grace period
for natural exit and then calls `p.kill()`, ignoring the `ESRCH` error
of killing an already-dead process; either way the entry's process is
dead afterwards, and — precisely because the handler only polls and
kills — the entry itself is never removed from `child_processes`. -/

/-- A registry entry, reduced to the liveness of its process. -/
structure ChildProc where
  alive : Bool
deriving DecidableEq, Repr

/-- The effect of the grace-period wait followed by `p.kill()`
(lines 153-159) on one entry: a live process is killed; a dead one
raises `ESRCH`, which is swallowed. -/
def kill_child (p : ChildProc) : ChildProc :=
  if p.alive then { alive := false } else p

/-- `cleanup()` of lines 150-159, acting on the `child_processes`
registry: every entry is waited for and killed, and the registry list
itself is returned as the loop leaves it (no entry is ever removed). -/
def cleanup (registry : List ChildProc) : List ChildProc :=
  registry.map kill_child

/-! ## Run recording and the final exit code (`main`, lines 454-592)

`test_cases` is the dict keyed by test name; it is modelled as an
association list where an assignment prepends and a lookup takes the
first match (Python dict assignment semantics for lookups).
`not_good_tests` is the list driving the final exit code. -/

/-- A retained `TestCase` record, reduced to the run it came from
(`runIndex`, the position of the run in the executed sequence) and the
label the recording code attached. -/
structure TestCaseRec where
  runIndex : Nat
  label : RunLabel
deriving DecidableEq, Repr

/-- Dict lookup: first binding wins. -/
def dict_get : List (String × TestCaseRec) → String → Option TestCaseRec
  | [], _ => none
  | (k, v) :: rest, key => if k = key then some v else dict_get rest key

/-- Dict assignment `test_cases[name] = tc`, as seen through
`dict_get`: prepend the new binding. -/
def dict_set (m : List (String × TestCaseRec)) (key : String) (v : TestCaseRec) :
    List (String × TestCaseRec) :=
  (key, v) :: m

/-- The record built for run number `idx` with result `r`. -/
def mk_record (idx : Nat) (r : CmdResult) : TestCaseRec :=
  ⟨idx, classify r⟩

/-- The `test_cases` update of lines 511-535: on
`everything_looks_good`, store only if the name is absent
(`if test_name not in test_cases`, line 514); otherwise always store
(`test_cases[test_name] = tc`, line 535). -/
def record_run (cases : List (String × TestCaseRec)) (name : String)
    (r : CmdResult) (tc : TestCaseRec) : List (String × TestCaseRec) :=
  if r.everything_looks_good then
    match dict_get cases name with
    | none => dict_set cases name tc
    | some _ => cases
  else dict_set cases name tc

/-- The `test_cases` evolution over a sequence of runs all carrying the
same test name, numbering runs from `idx`. -/
def record_runs (name : String) :
    List (String × TestCaseRec) → Nat → List CmdResult → List (String × TestCaseRec)
  | cases, _, [] => cases
  | cases, idx, r :: rest =>
      record_runs name (record_run cases name r (mk_record idx r)) (idx + 1) rest

/-- The mutable state of `main`'s loop that the final exit code and the
report depend on. -/
structure LoopState where
  cases : List (String × TestCaseRec)
  not_good : List String
deriving DecidableEq, Repr

/-- One iteration of the recording code (lines 511-535) for a run of
test `name` with result `r`: the pass branch stores the record only for
a fresh name; the failure branch appends to `not_good_tests` and always
stores. -/
def loop_step (s : LoopState) (idx : Nat) (name : String) (r : CmdResult) :
    LoopState :=
  if r.everything_looks_good then
    { s with cases := record_run s.cases name r (mk_record idx r) }
  else
    { cases := record_run s.cases name r (mk_record idx r),
      not_good := s.not_good ++ [name] }

/-- The run loop folded over the executed sequence of
(test name, result) pairs, numbering runs from `idx`. -/
def run_loop : LoopState → Nat → List (String × CmdResult) → LoopState
  | s, _, [] => s
  | s, idx, (name, r) :: rest => run_loop (loop_step s idx name r) (idx + 1) rest

/-- Lines 589-592: `exit(1)` when `not_good_tests` is non-empty,
`exit(0)` otherwise. -/
def final_exit_code (s : LoopState) : Nat :=
  if s.not_good = [] then 0 else 1

/-! ## Lemmas about the version comparison -/

theorem zip_replicate_left (ys : List Int) :
    (List.replicate ys.length (0 : Int)).zip ys = ys.map (fun j => (0, j)) := by
  induction ys with
  | nil => rfl
  | cons y ys ih => simp [List.replicate_succ, ih]

theorem zipLongest0_eq_zip_pad (a : List Int) :
    ∀ b : List Int,
      zipLongest0 a b =
        (a ++ List.replicate (b.length - a.length) 0).zip
          (b ++ List.replicate (a.length - b.length) 0) := by
  induction a with
  | nil =>
      intro b
      simp [zipLongest0, zip_replicate_left]
  | cons i is ih =>
      intro b
      cases b with
      | nil =>
          have h := ih []
          simp only [zipLongest0]
          simp only [List.length_nil, List.length_cons, Nat.zero_sub,
            List.replicate, List.nil_append, List.append_nil] at h ⊢
          rw [h]
          simp [List.zip]
      | cons j js =>
          have h := ih js
          simp only [zipLongest0, List.length_cons, Nat.succ_sub_succ]
          rw [h]
          simp [List.zip]

theorem versionSpecHolds_cons_eq (i : Int) (rest : List (Int × Int)) :
    versionSpecHolds ((i, i) :: rest) ↔ versionSpecHolds rest := by
  constructor
  · rintro (h | ⟨l₁, a, b, l₂, heq, hall, hne, hlt⟩)
    · exact Or.inl fun p hp => h p (List.mem_cons_of_mem _ hp)
    · cases l₁ with
      | nil =>
          rw [List.nil_append] at heq
          obtain ⟨hhead, -⟩ := List.cons.inj heq
          obtain ⟨ha, hb⟩ := Prod.mk.inj hhead
          exact absurd (ha.symm.trans hb) hne
      | cons q l₁ =>
          rw [List.cons_append] at heq
          obtain ⟨-, htail⟩ := List.cons.inj heq
          exact Or.inr ⟨l₁, a, b, l₂, htail,
            fun p hp => hall p (List.mem_cons_of_mem _ hp), hne, hlt⟩
  · rintro (h | ⟨l₁, a, b, l₂, heq, hall, hne, hlt⟩)
    · refine Or.inl (List.forall_mem_cons.mpr ⟨rfl, h⟩)
    · refine Or.inr ⟨(i, i) :: l₁, a, b, l₂, ?_, List.forall_mem_cons.mpr ⟨rfl, hall⟩, hne, hlt⟩
      rw [heq, List.cons_append]

theorem versionSpecHolds_cons_ne (i j : Int) (hij : i ≠ j) (rest : List (Int × Int)) :
    versionSpecHolds ((i, j) :: rest) ↔ i < j := by
  constructor
  · rintro (h | ⟨l₁, a, b, l₂, heq, hall, hne, hlt⟩)
    · exact absurd (h (i, j) (List.mem_cons_self _ _)) hij
    · cases l₁ with
      | nil =>
          rw [List.nil_append] at heq
          obtain ⟨hhead, -⟩ := List.cons.inj heq
          obtain ⟨ha, hb⟩ := Prod.mk.inj hhead.symm
          rw [← ha, ← hb]
          exact hlt
      | cons q l₁ =>
          rw [List.cons_append] at heq
          obtain ⟨hhead, -⟩ := List.cons.inj heq
          have : q.1 = q.2 := hall q (List.mem_cons_self _ _)
          rw [← hhead] at this
          exact absurd this hij
  · intro hlt
    exact Or.inr ⟨[], i, j, rest, rfl, by simp, hij, hlt⟩

theorem firstDiffLess_iff (zs : List (Int × Int)) :
    firstDiffLess zs = true ↔ versionSpecHolds zs := by
  induction zs with
  | nil =>
      simp [firstDiffLess, versionSpecHolds]
  | cons pq rest ih =>
      obtain ⟨i, j⟩ := pq
      by_cases hij : i = j
      · subst hij
        rw [versionSpecHolds_cons_eq, ← ih]
        simp [firstDiffLess]
      · rw [versionSpecHolds_cons_ne i j hij]
        simp [firstDiffLess, hij]

/-! ## Claim C1 -/

/-- C1: `is_version_at_least(required, actual)` splits both strings on
dots and on the literal `-b` separator into integer components, pads the
shorter sequence with zeros, and returns true exactly when the padded
sequences are equal in all compared components or, at the first
differing position, the required component is less than the actual one;
moreover `is_version_at_least("1.3.1.0", "1.3.1.0")` is true,
`is_version_at_least("1.3.1.0", "1.2.9.0")` is false, and
`is_version_at_least("2.13.1.0-b1", "2.13.1.0-b5")` is true. -/
theorem claim_C1_version_gating :
    (∀ v_least v_actual : String,
      is_version_at_least v_least v_actual = true ↔
        versionSpecHolds
          (((splitVersion v_least).map pyInt ++
              List.replicate (((splitVersion v_actual).map pyInt).length -
                ((splitVersion v_least).map pyInt).length) 0).zip
            ((splitVersion v_actual).map pyInt ++
              List.replicate (((splitVersion v_least).map pyInt).length -
                ((splitVersion v_actual).map pyInt).length) 0))) ∧
    is_version_at_least "1.3.1.0" "1.3.1.0" = true ∧
    is_version_at_least "1.3.1.0" "1.2.9.0" = false ∧
    is_version_at_least "2.13.1.0-b1" "2.13.1.0-b5" = true := by
  refine ⟨fun v_least v_actual => ?_, rfl, rfl, rfl⟩
  rw [is_version_at_least, zipLongest0_eq_zip_pad]
  exact firstDiffLess_iff _

/-! ## Claim C10 -/

/-- C10: `truncate_line` returns a string no longer than its input, and
returns the input unchanged whenever the input is at most 500 characters
(the default `max_chars`) or whenever the annotated truncated form would
not be shorter than the input. -/
theorem claim_C10_truncate_line :
    ∀ (line : String) (max_chars : Nat),
      (truncate_line line max_chars).length ≤ line.length ∧
      (line.length ≤ 500 → truncate_line_default line = line) ∧
      (line.length ≤ (line.take 500 ++ "... (skipped " ++
          toString (line.length - 500) ++ " chars)").length →
        truncate_line_default line = line) := by
  intro line max_chars
  refine ⟨?_, fun h => ?_, fun h => ?_⟩
  · rw [truncate_line]
    split
    · exact Nat.le_refl _
    · dsimp only
      split
      · exact Nat.le_refl _
      · omega
  · rw [truncate_line_default, truncate_line, if_pos h]
  · rw [truncate_line_default, truncate_line]
    split
    · rfl
    · dsimp only
      rw [if_pos h]

/-- C10 witness: the theorem applied at a concrete line. -/
theorem claim_C10_witness :
    (truncate_line "hello" 500).length ≤ "hello".length ∧
    ("hello".length ≤ 500 → truncate_line_default "hello" = "hello") ∧
    ("hello".length ≤ ("hello".take 500 ++ "... (skipped " ++
        toString ("hello".length - 500) ++ " chars)").length →
      truncate_line_default "hello" = "hello") :=
  claim_C10_truncate_line "hello" 500

/-! ## Claims C2 and C4: the outcome classification -/

theorem classify_pass_iff (r : CmdResult) :
    classify r = RunLabel.Pass ↔ r.everything_looks_good = true := by
  rcases r with ⟨o, rc, t, g⟩
  cases g <;> cases t <;> simp [classify]

/-- C2 counterexample: a resolved result with `timed_out = true` and
`everything_looks_good = true` is recorded as a Pass, not as a Timeout:
the recording code of `main` tests `everything_looks_good` first. -/
theorem claim_C2_counterexample :
    (CmdResult.mk none 0 true true).timed_out = true ∧
    classify (CmdResult.mk none 0 true true) = RunLabel.Pass ∧
    classify (CmdResult.mk none 0 true true) ≠ RunLabel.Timeout := by
  refine ⟨rfl, rfl, ?_⟩
  decide

/-- C2 (amended): for every resolved result with `timed_out = true` and
`everything_looks_good = false`, the run is recorded as a Timeout: the
timeout label takes priority over the remaining failure labels, though
not over a successful-validation (`everything_looks_good`) label. -/
theorem claim_C2_timeout_priority (r : CmdResult)
    (hg : r.everything_looks_good = false) (ht : r.timed_out = true) :
    classify r = RunLabel.Timeout := by
  simp [classify, hg, ht]

/-- C2 witness: the amended theorem at a concrete timed-out result. -/
theorem claim_C2_witness :
    classify (CmdResult.mk none 1 true false) = RunLabel.Timeout :=
  claim_C2_timeout_priority (CmdResult.mk none 1 true false) rfl rfl

/-- C4: at the claimed non-zero-exit input (`timed_out = false`,
`returncode = 1`, `everything_looks_good = false`) the recording code
labels the run a validation failure, and its exit-code arm is dead: no
resolved result is ever labelled `NonZeroExit`, because the guard
`not result.everything_looks_good` of the preceding `elif` always holds
inside the `else` branch of the `everything_looks_good` test. -/
theorem claim_C4_nonzero_exit_dead :
    classify (CmdResult.mk none 1 false false) = RunLabel.ValidationFailure ∧
    ∀ r : CmdResult, classify r ≠ RunLabel.NonZeroExit := by
  refine ⟨rfl, fun r => ?_⟩
  rcases r with ⟨o, rc, t, g⟩
  cases g <;> cases t <;> simp [classify]

/-! ## Claim C3: sticky-failure aggregation -/

theorem dict_get_dict_set (m : List (String × TestCaseRec)) (k : String)
    (v : TestCaseRec) : dict_get (dict_set m k v) k = some v := by
  simp [dict_get, dict_set]

theorem record_runs_stable (name : String) (tc : TestCaseRec) (rs : List CmdResult) :
    ∀ (cases : List (String × TestCaseRec)) (idx : Nat),
      (∀ r ∈ rs, r.everything_looks_good = true) →
      dict_get cases name = some tc →
      dict_get (record_runs name cases idx rs) name = some tc := by
  induction rs with
  | nil => exact fun cases idx _ h => h
  | cons r rest ih =>
      intro cases idx hall h
      have hr : r.everything_looks_good = true := hall r (List.mem_cons_self _ _)
      have hstep : record_run cases name r (mk_record idx r) = cases := by
        rw [record_run, if_pos hr, h]
      rw [record_runs, hstep]
      exact ih cases (idx + 1) (fun x hx => hall x (List.mem_cons_of_mem _ hx)) h

/-- C3: over a sequence of runs for one test name, the first Pass is
retained and never replaced by a later Pass, while any non-Pass run
always overwrites the stored record; in particular the outcome sequence
[Pass, NonZeroExit-style failure] retains the failure record of the
second run, and [failure, Pass] keeps the failure record of the first. -/
theorem claim_C3_sticky_failure :
    (∀ (name : String) (cases : List (String × TestCaseRec)) (idx : Nat)
        (r : CmdResult) (rest : List CmdResult),
        dict_get cases name = none →
        (∀ x ∈ r :: rest, x.everything_looks_good = true) →
        dict_get (record_runs name cases idx (r :: rest)) name =
          some (mk_record idx r)) ∧
    (∀ (cases : List (String × TestCaseRec)) (name : String) (r : CmdResult)
        (tc : TestCaseRec),
        r.everything_looks_good = false →
        dict_get (record_run cases name r tc) name = some tc) ∧
    dict_get (record_runs "t" [] 0
        [CmdResult.mk none 0 false true, CmdResult.mk none 1 false false]) "t" =
      some (mk_record 1 (CmdResult.mk none 1 false false)) ∧
    (mk_record 1 (CmdResult.mk none 1 false false)).label ≠ RunLabel.Pass ∧
    dict_get (record_runs "t" [] 0
        [CmdResult.mk none 1 false false, CmdResult.mk none 0 false true]) "t" =
      some (mk_record 0 (CmdResult.mk none 1 false false)) := by
  refine ⟨?_, ?_, by decide, by decide, by decide⟩
  · intro name cases idx r rest hnone hall
    have hr : r.everything_looks_good = true := hall r (List.mem_cons_self _ _)
    have hstep : record_run cases name r (mk_record idx r) =
        dict_set cases name (mk_record idx r) := by
      rw [record_run, if_pos hr, hnone]
    rw [record_runs, hstep]
    exact record_runs_stable name (mk_record idx r) rest _ (idx + 1)
      (fun x hx => hall x (List.mem_cons_of_mem _ hx)) (dict_get_dict_set _ _ _)
  · intro cases name r tc hr
    rw [record_run, if_neg (by rw [hr]; exact Bool.false_ne_true)]
    exact dict_get_dict_set _ _ _

/-- C3 witness: the theorem's two universal parts at concrete inputs. -/
theorem claim_C3_witness :
    dict_get (record_runs "w" [] 5 [CmdResult.mk none 0 false true]) "w" =
      some (mk_record 5 (CmdResult.mk none 0 false true)) ∧
    dict_get (record_run [("w", mk_record 0 (CmdResult.mk none 0 false true))] "w"
        (CmdResult.mk none 1 false false) (mk_record 1 (CmdResult.mk none 1 false false))) "w" =
      some (mk_record 1 (CmdResult.mk none 1 false false)) :=
  ⟨claim_C3_sticky_failure.1 "w" [] 5 (CmdResult.mk none 0 false true) [] rfl
      (by decide),
    claim_C3_sticky_failure.2.1 [("w", mk_record 0 (CmdResult.mk none 0 false true))]
      "w" (CmdResult.mk none 1 false false)
      (mk_record 1 (CmdResult.mk none 1 false false)) rfl⟩

/-! ## Claim C7: the final exit code -/

theorem run_loop_not_good_nil (runs : List (String × CmdResult)) :
    ∀ (s : LoopState) (idx : Nat),
      (run_loop s idx runs).not_good = [] ↔
        s.not_good = [] ∧ ∀ p ∈ runs, p.2.everything_looks_good = true := by
  induction runs with
  | nil =>
      intro s idx
      simp [run_loop]
  | cons q rest ih =>
      obtain ⟨name, r⟩ := q
      intro s idx
      rw [run_loop, ih]
      by_cases hr : r.everything_looks_good = true
      · simp [loop_step, hr, List.forall_mem_cons]
      · have hr' : r.everything_looks_good = false := by
          cases hg : r.everything_looks_good
          · rfl
          · exact absurd hg hr
        simp [loop_step, hr', List.forall_mem_cons]

theorem run_loop_all_pass (runs : List (String × CmdResult)) :
    ∀ (s : LoopState) (idx : Nat),
      (∀ k tc, dict_get s.cases k = some tc → tc.label = RunLabel.Pass) →
      (∀ p ∈ runs, p.2.everything_looks_good = true) →
      ∀ k tc, dict_get (run_loop s idx runs).cases k = some tc →
        tc.label = RunLabel.Pass := by
  induction runs with
  | nil => exact fun s idx hs _ => hs
  | cons q rest ih =>
      obtain ⟨name, r⟩ := q
      intro s idx hs hall
      have hr : r.everything_looks_good = true := hall (name, r) (List.mem_cons_self _ _)
      rw [run_loop]
      refine ih _ (idx + 1) ?_ (fun x hx => hall x (List.mem_cons_of_mem _ hx))
      intro k tc hget
      rw [loop_step, if_pos hr] at hget
      dsimp only at hget
      rw [record_run, if_pos hr] at hget
      cases hn : dict_get s.cases name with
      | some v =>
          rw [hn] at hget
          exact hs k tc hget
      | none =>
          rw [hn] at hget
          rw [dict_set, dict_get] at hget
          by_cases hk : name = k
          · rw [if_pos hk] at hget
            obtain rfl := Option.some.inj hget
            exact (classify_pass_iff r).mpr hr
          · rw [if_neg hk] at hget
            exact hs k tc hget

theorem loop_step_bad (s : LoopState) (idx : Nat) (name : String) (r : CmdResult)
    (h : ∃ k tc, dict_get s.cases k = some tc ∧ tc.label ≠ RunLabel.Pass) :
    ∃ k tc, dict_get (loop_step s idx name r).cases k = some tc ∧
      tc.label ≠ RunLabel.Pass := by
  obtain ⟨k, tc, hget, hbad⟩ := h
  by_cases hr : r.everything_looks_good = true
  · rw [loop_step, if_pos hr]
    dsimp only
    rw [record_run, if_pos hr]
    cases hn : dict_get s.cases name with
    | some v => exact ⟨k, tc, hget, hbad⟩
    | none =>
        have hk : name ≠ k := by
          intro he
          rw [he, hget] at hn
          cases hn
        refine ⟨k, tc, ?_, hbad⟩
        rw [dict_set, dict_get, if_neg hk]
        exact hget
  · have hr' : ¬(r.everything_looks_good = true) := hr
    rw [loop_step, if_neg hr']
    refine ⟨name, mk_record idx r, ?_, ?_⟩
    · dsimp only
      rw [record_run, if_neg hr']
      exact dict_get_dict_set _ _ _
    · rw [mk_record]
      intro hp
      exact hr ((classify_pass_iff r).mp hp)

theorem run_loop_bad_preserved (runs : List (String × CmdResult)) :
    ∀ (s : LoopState) (idx : Nat),
      (∃ k tc, dict_get s.cases k = some tc ∧ tc.label ≠ RunLabel.Pass) →
      ∃ k tc, dict_get (run_loop s idx runs).cases k = some tc ∧
        tc.label ≠ RunLabel.Pass := by
  induction runs with
  | nil => exact fun s idx h => h
  | cons q rest ih =>
      obtain ⟨name, r⟩ := q
      intro s idx h
      rw [run_loop]
      exact ih _ (idx + 1) (loop_step_bad s idx name r h)

theorem run_loop_bad_run (runs : List (String × CmdResult)) :
    ∀ (s : LoopState) (idx : Nat),
      (∃ p ∈ runs, p.2.everything_looks_good = false) →
      ∃ k tc, dict_get (run_loop s idx runs).cases k = some tc ∧
        tc.label ≠ RunLabel.Pass := by
  induction runs with
  | nil =>
      rintro s idx ⟨p, hp, -⟩
      cases hp
  | cons q rest ih =>
      obtain ⟨name, r⟩ := q
      rintro s idx ⟨p, hp, hbad⟩
      rw [run_loop]
      rcases List.mem_cons.mp hp with heq | hmem
      · subst heq
        refine run_loop_bad_preserved rest _ (idx + 1) ?_
        have hr' : ¬(r.everything_looks_good = true) := by
          rw [hbad]
          exact Bool.false_ne_true
        rw [loop_step, if_neg hr']
        refine ⟨name, mk_record idx r, ?_, ?_⟩
        · dsimp only
          rw [record_run, if_neg hr']
          exact dict_get_dict_set _ _ _
        · rw [mk_record]
          intro hpass
          exact hr' ((classify_pass_iff r).mp hpass)
      · exact ih _ (idx + 1) ⟨p, hmem, hbad⟩

/-- C7: for a completed run of the main loop, the process exit code is
0 exactly when every retained test-case record has label Pass, and 1
exactly when at least one executed run had a non-Pass outcome. -/
theorem claim_C7_final_exit_code (runs : List (String × CmdResult)) :
    (final_exit_code (run_loop ⟨[], []⟩ 0 runs) = 0 ↔
      ∀ k tc, dict_get (run_loop ⟨[], []⟩ 0 runs).cases k = some tc →
        tc.label = RunLabel.Pass) ∧
    (final_exit_code (run_loop ⟨[], []⟩ 0 runs) = 1 ↔
      ∃ p ∈ runs, classify p.2 ≠ RunLabel.Pass) := by
  have hng : (run_loop ⟨[], []⟩ 0 runs).not_good = [] ↔
      ∀ p ∈ runs, p.2.everything_looks_good = true := by
    rw [run_loop_not_good_nil]
    simp
  have hbadspec : (∃ p ∈ runs, p.2.everything_looks_good = false) ↔
      ∃ p ∈ runs, classify p.2 ≠ RunLabel.Pass := by
    constructor
    · rintro ⟨p, hp, hbad⟩
      refine ⟨p, hp, fun hpass => ?_⟩
      rw [(classify_pass_iff p.2).mp hpass] at hbad
      cases hbad
    · rintro ⟨p, hp, hbad⟩
      refine ⟨p, hp, ?_⟩
      cases hg : p.2.everything_looks_good
      · rfl
      · exact absurd ((classify_pass_iff p.2).mpr hg) hbad
  have hnotall : ¬(∀ p ∈ runs, p.2.everything_looks_good = true) ↔
      ∃ p ∈ runs, p.2.everything_looks_good = false := by
    push_neg
    simp [Bool.not_eq_true]
  constructor
  · constructor
    · intro h0
      have hempty : (run_loop ⟨[], []⟩ 0 runs).not_good = [] := by
        by_contra hne
        rw [final_exit_code, if_neg hne] at h0
        cases h0
      exact run_loop_all_pass runs ⟨[], []⟩ 0
        (fun k tc h => by cases h) (hng.mp hempty)
    · intro hall
      have hempty : (run_loop ⟨[], []⟩ 0 runs).not_good = [] := by
        rw [hng]
        by_contra hbad
        obtain ⟨k, tc, hget, htc⟩ :=
          run_loop_bad_run runs ⟨[], []⟩ 0 (hnotall.mp hbad)
        exact htc (hall k tc hget)
      rw [final_exit_code, if_pos hempty]
  · constructor
    · intro h1
      have hne : (run_loop ⟨[], []⟩ 0 runs).not_good ≠ [] := by
        intro he
        rw [final_exit_code, if_pos he] at h1
        cases h1
      exact hbadspec.mp (hnotall.mp (fun hall => hne (hng.mpr hall)))
    · intro hbad
      rw [final_exit_code, if_neg]
      intro he
      exact hnotall.mpr (hbadspec.mpr hbad) (hng.mp he)

/-! ## Claim C5: deadline enforcement in the supervisor -/

theorem waitLoopAux_no_exit (p : ProcModel) :
    ∀ (remaining t : Nat), (∀ u, u ≤ t + remaining → procExited p u = false) →
      waitLoopAux p remaining t = t + remaining := by
  intro remaining
  induction remaining with
  | zero => intro t _; rfl
  | succ n ih =>
      intro t h
      rw [waitLoopAux, h t (by omega), if_neg (by exact Bool.false_ne_true),
        ih (t + 1) (fun u hu => h u (by omega))]
      omega

theorem waitLoopAux_exit (p : ProcModel) (e : Nat) (he : p.exitsAt = some e) :
    ∀ (remaining t : Nat), t ≤ e → e ≤ t + remaining →
      waitLoopAux p remaining t = e := by
  intro remaining
  induction remaining with
  | zero =>
      intro t h1 h2
      rw [waitLoopAux]
      omega
  | succ n ih =>
      intro t h1 h2
      by_cases hte : e ≤ t
      · have hex : procExited p t = true := by
          rw [procExited, he]
          exact decide_eq_true hte
        rw [waitLoopAux, hex, if_pos rfl]
        omega
      · have hex : procExited p t = false := by
          rw [procExited, he]
          exact decide_eq_false hte
        rw [waitLoopAux, hex, if_neg (by exact Bool.false_ne_true)]
        exact ih (t + 1) (by omega) (by omega)

/-- C5: for every `run_cmd` invocation with a finite timeout, if the
child has not exited by the time the deadline elapses then the result
has `timed_out = true`, a kill is sent, the child is waited for (it is
not alive at return) and the returncode comes from that wait; if the
child exits naturally before the deadline, `timed_out = false` and the
returncode is the child's own exit code (and it is likewise not alive
at return). -/
theorem claim_C5_deadline (p : ProcModel) (timeout : Nat)
    (captured : Option (List String)) :
    ((∀ e, p.exitsAt = some e → timeout < e) →
      (runCmd p timeout captured).result.timed_out = true ∧
      (runCmd p timeout captured).killSent = true ∧
      (runCmd p timeout captured).aliveAtReturn = false ∧
      (runCmd p timeout captured).result.returncode = p.killExitCode) ∧
    (∀ e, p.exitsAt = some e → e < timeout →
      (runCmd p timeout captured).result.timed_out = false ∧
      (runCmd p timeout captured).aliveAtReturn = false ∧
      (runCmd p timeout captured).result.returncode = p.exitCode) := by
  constructor
  · intro h
    have hall : ∀ u, u ≤ 0 + timeout → procExited p u = false := by
      intro u hu
      rw [procExited]
      cases hx : p.exitsAt with
      | none => rfl
      | some e =>
          have := h e hx
          exact decide_eq_false (by omega)
    have hw : waitLoop p timeout = timeout := by
      rw [waitLoop, waitLoopAux_no_exit p timeout 0 hall]
      omega
    have hend : procExited p (waitLoop p timeout) = false := by
      rw [hw]
      exact hall timeout (by omega)
    refine ⟨?_, ?_, ?_, ?_⟩ <;> simp [runCmd, hend]
  · intro e hx hlt
    have hw : waitLoop p timeout = e := by
      rw [waitLoop]
      exact waitLoopAux_exit p e hx timeout 0 (Nat.zero_le e) (by omega)
    have hend : procExited p (waitLoop p timeout) = true := by
      rw [hw, procExited, hx]
      exact decide_eq_true (Nat.le_refl e)
    refine ⟨?_, ?_, ?_⟩ <;> simp [runCmd, hend]

set_option maxRecDepth 4000 in
/-- C5 witness: the theorem at a never-exiting process and at a process
exiting naturally at time 1, both with timeout 3. -/
theorem claim_C5_witness :
    ((runCmd (ProcModel.mk none 0 137) 3 none).result.timed_out = true ∧
      (runCmd (ProcModel.mk none 0 137) 3 none).killSent = true ∧
      (runCmd (ProcModel.mk none 0 137) 3 none).aliveAtReturn = false ∧
      (runCmd (ProcModel.mk none 0 137) 3 none).result.returncode = 137) ∧
    ((runCmd (ProcModel.mk (some 1) 5 137) 3 none).result.timed_out = false ∧
      (runCmd (ProcModel.mk (some 1) 5 137) 3 none).aliveAtReturn = false ∧
      (runCmd (ProcModel.mk (some 1) 5 137) 3 none).result.returncode = 5) :=
  ⟨(claim_C5_deadline (ProcModel.mk none 0 137) 3 none).1
      (fun e h => by cases h),
    (claim_C5_deadline (ProcModel.mk (some 1) 5 137) 3 none).2 1 rfl
      (by decide)⟩

/-! ## Claim C8: sentinel classification and capture-file retention -/

/-- C8: with output captured to files, `everything_looks_good` holds
exactly when some line of the 50-line tail of the standard-output file
begins with the sentinel; when it holds the capture files are deleted
and the output field is `None`, and when it does not the files are
retained and the output field is the truncated 50-line tail. -/
theorem claim_C8_sentinel (p : ProcModel) (timeout : Nat)
    (fileLines : List String) :
    ((runCmd p timeout (some fileLines)).result.everything_looks_good = true ↔
      ∃ l ∈ last_lines fileLines 50, pyStartswith l sentinel = true) ∧
    ((runCmd p timeout (some fileLines)).result.everything_looks_good = true →
      (runCmd p timeout (some fileLines)).filesKept = false ∧
      (runCmd p timeout (some fileLines)).result.output = none) ∧
    ((runCmd p timeout (some fileLines)).result.everything_looks_good = false →
      (runCmd p timeout (some fileLines)).filesKept = true ∧
      (runCmd p timeout (some fileLines)).result.output =
        some (String.intercalate "\n"
          ((last_lines fileLines 50).map truncate_line_default))) := by
  have helg : (runCmd p timeout (some fileLines)).result.everything_looks_good =
      (last_lines fileLines 50).any (fun l => pyStartswith l sentinel) := rfl
  refine ⟨?_, fun hg => ?_, fun hg => ?_⟩
  · rw [helg, List.any_eq_true]
  · rw [helg] at hg
    constructor <;> simp [runCmd, hg]
  · rw [helg] at hg
    constructor <;> simp [runCmd, hg]

set_option maxRecDepth 4000 in
/-- C8 witness: the theorem's conditional parts discharged at concrete
capture files, one containing the sentinel and one lacking it. -/
theorem claim_C8_witness :
    ((runCmd (ProcModel.mk (some 1) 0 9) 3
        (some ["Everything looks good!"])).filesKept = false ∧
      (runCmd (ProcModel.mk (some 1) 0 9) 3
        (some ["Everything looks good!"])).result.output = none) ∧
    ((runCmd (ProcModel.mk (some 1) 0 9) 3 (some ["nope"])).filesKept = true ∧
      (runCmd (ProcModel.mk (some 1) 0 9) 3 (some ["nope"])).result.output =
        some (String.intercalate "\n"
          ((last_lines ["nope"] 50).map truncate_line_default))) :=
  ⟨(claim_C8_sentinel (ProcModel.mk (some 1) 0 9) 3
      ["Everything looks good!"]).2.1 (by decide),
    (claim_C8_sentinel (ProcModel.mk (some 1) 0 9) 3 ["nope"]).2.2 (by decide)⟩

/-! ## Claim C9: runs without file capture -/

/-- C9: when output is not captured to files, the returned result always
has `everything_looks_good = false` and an empty output string, so such
a run is never classified as a Pass. -/
theorem claim_C9_no_capture (p : ProcModel) (timeout : Nat) :
    (runCmd p timeout none).result.everything_looks_good = false ∧
    (runCmd p timeout none).result.output = some "" ∧
    classify (runCmd p timeout none).result ≠ RunLabel.Pass := by
  refine ⟨?_, ?_, ?_⟩
  · rfl
  · rfl
  · intro hp
    have := (classify_pass_iff _).mp hp
    cases this

/-! ## Claim C6: the cleanup handler and the registry -/

/-- C6 counterexample: the cleanup handler never removes entries from
the `child_processes` registry, so a registry holding one entry still
holds it after cleanup. -/
theorem claim_C6_counterexample :
    cleanup [ChildProc.mk true] ≠ [] := by
  decide

/-- C6 (amended): after the cleanup handler runs, the registry still
holds exactly its previous entries (the handler never removes any), but
no entry's process is still alive: every one has been waited for and
killed. -/
theorem claim_C6_registry (registry : List ChildProc) :
    (cleanup registry).length = registry.length ∧
    ∀ q ∈ cleanup registry, q.alive = false := by
  refine ⟨List.length_map _ _, ?_⟩
  intro q hq
  obtain ⟨x, -, rfl⟩ := List.mem_map.mp hq
  rw [kill_child]
  split
  · rfl
  · next hx =>
      cases ha : x.alive
      · rfl
      · exact absurd ha hx

/-- C6 witness: the amended theorem at a concrete two-entry registry. -/
theorem claim_C6_witness :
    (cleanup [ChildProc.mk true, ChildProc.mk false]).length =
      [ChildProc.mk true, ChildProc.mk false].length ∧
    ∀ q ∈ cleanup [ChildProc.mk true, ChildProc.mk false], q.alive = false :=
  claim_C6_registry [ChildProc.mk true, ChildProc.mk false]

end RunJepsen
